import Mathlib

/-!
Verification of `doc_sorter.py` (EdSalisbury/doc-sorter).

This file shallowly embeds the pure decision logic of the document-sorting
pipeline: the redactor (`redact_sensitive_info`), the unreadable predicate
(`is_unreadable`), the ambiguity trigger and orchestration of `process_pdf`,
the filename collision resolution of `get_unique_filename`, the destination
computation of `move_pdf`, the prompt construction of `get_llm_metadata`,
and the handle lifecycle of `extract_text_with_gpt4_vision`.

Python strings are modelled as Lean `String`/`List Char` (ASCII model of the
`\d` and `\w` character classes), Python dicts with string keys and values as
association lists, exceptions as `Except`/explicit outcome values, and the
external services (PDF library, OpenAI endpoints, filesystem) as oracle
parameters describing their answers.
-/

/-! ## Basic character and string helpers -/

/-- Model of the regex character class `\d` (ASCII digits). -/
def isDigitC (c : Char) : Bool := c.isDigit

/-- Model of the regex character class `\w` (ASCII word characters). -/
def isWordC (c : Char) : Bool := c.isAlphanum || c == '_'

/-- Model of Python `str.lower()` (ASCII case folding). -/
def pyLower (s : String) : String := ⟨s.data.map Char.toLower⟩

/-- Model of the Python slice `s[:n]`. -/
def strTake (n : Nat) (s : String) : String := ⟨s.data.take n⟩

/-- Check whether `pat` occurs as a contiguous sublist of `l`. -/
def listContains (pat : List Char) : List Char → Bool
  | [] => pat.isEmpty
  | c :: l => pat.isPrefixOf (c :: l) || listContains pat l

/-- Model of the Python substring test `pat in s`. -/
def pyIn (pat s : String) : Bool := listContains pat.data s.data

/-! ## Decimal numerals (model of Python `str(n)` for the `-1`, `-2`, … suffixes) -/

/-- Digits of a natural number, most significant first, with structural fuel
(`fuel ≥ n` suffices). -/
def natStrAux : Nat → Nat → List Char
  | 0, _ => []
  | _ + 1, 0 => []
  | fuel + 1, n + 1 => natStrAux fuel ((n + 1) / 10) ++ [Nat.digitChar ((n + 1) % 10)]

/-- Decimal numeral of a natural number, most significant digit first. -/
def natStr (n : Nat) : String := if n = 0 then "0" else ⟨natStrAux n n⟩

theorem natStrAux_eq_digits : ∀ (fuel n : Nat), n ≤ fuel →
    natStrAux fuel n = (Nat.digits 10 n).reverse.map Nat.digitChar := by
  intro fuel
  induction fuel with
  | zero =>
    intro n h
    have : n = 0 := Nat.le_zero.mp h
    subst this
    simp [natStrAux]
  | succ fuel ih =>
    intro n h
    match n with
    | 0 => simp [natStrAux]
    | n + 1 =>
      rw [natStrAux]
      rw [ih ((n + 1) / 10) (by
        have := Nat.div_lt_self (Nat.succ_pos n) (by norm_num : 1 < 10)
        omega)]
      rw [Nat.digits_def' (by norm_num : (1 : ℕ) < 10) (Nat.succ_pos n)]
      simp

/-- Left inverse of `natStr`, used to prove its injectivity. -/
def natStrVal (cs : List Char) : Nat :=
  Nat.ofDigits 10 ((cs.map fun c => c.toNat - 48).reverse)

theorem digitChar_toNat_sub (d : Nat) (h : d < 10) : (Nat.digitChar d).toNat - 48 = d := by
  interval_cases d <;> rfl

theorem natStrVal_natStr (n : Nat) : natStrVal (natStr n).data = n := by
  by_cases h : n = 0
  · subst h; rfl
  · have hd : ∀ d ∈ (Nat.digits 10 n).reverse, ((Nat.digitChar d).toNat - 48) = d := by
      intro d hdm
      exact digitChar_toNat_sub d (Nat.digits_lt_base (by norm_num) (List.mem_reverse.mp hdm))
    simp only [natStr, if_neg h, natStrVal, natStrAux_eq_digits n n (le_refl n), List.map_map]
    have : List.map ((fun c => c.toNat - 48) ∘ Nat.digitChar) (Nat.digits 10 n).reverse
        = List.map id (Nat.digits 10 n).reverse := List.map_congr_left (by simpa using hd)
    rw [this, List.map_id, List.reverse_reverse, Nat.ofDigits_digits]

theorem natStr_injective : Function.Injective natStr := by
  intro m n h
  have := congrArg (fun s => natStrVal s.data) h
  simpa [natStrVal_natStr] using this

/-! ## `os.path.splitext` and `get_unique_filename` (doc_sorter.py lines 139-149)

The directory contents are modelled as the list of file names that already
exist in the target directory (`os.path.exists(os.path.join(directory, f))`
is membership of `f` in that list). -/

/-- Model of CPython `os.path.splitext` for plain file names (no separators):
split at the last dot, unless every character before the last dot is a dot. -/
def splitext (s : String) : String × String :=
  match s.data.reverse.findIdx? (fun c => c == '.') with
  | none => (s, "")
  | some j =>
    if (s.data.take (s.data.length - 1 - j)).any (fun c => c != '.') then
      (⟨s.data.take (s.data.length - 1 - j)⟩, ⟨s.data.drop (s.data.length - 1 - j)⟩)
    else (s, "")

theorem splitext_append (s : String) : (splitext s).1 ++ (splitext s).2 = s := by
  unfold splitext
  split
  · exact String.append_empty s
  · split
    · apply String.ext
      simp [String.data_append, List.take_append_drop]
    · exact String.append_empty s

/-- Candidate name `f"{base_name}-{counter}{ext}"` built in the collision loop. -/
def candName (base ext : String) (n : Nat) : String := base ++ "-" ++ natStr n ++ ext

/-- Candidate tried at loop iteration `n`: iteration `0` tries the suggested
name itself (`new_filename = filename` before the loop), iteration `n ≥ 1`
tries `base-n⟨ext⟩`. -/
def uf_cand (filename base ext : String) : Nat → String
  | 0 => filename
  | n + 1 => candName base ext (n + 1)

/-- The `while os.path.exists(...)` loop of `get_unique_filename`, with
explicit fuel (the loop always terminates within `|existing| + 1` probes). -/
def uf_loop (existing : List String) (filename base ext : String) : Nat → Nat → String
  | 0, n => uf_cand filename base ext n
  | fuel + 1, n =>
    if uf_cand filename base ext n ∈ existing then
      uf_loop existing filename base ext fuel (n + 1)
    else uf_cand filename base ext n

/-- Model of `get_unique_filename(directory, filename)`: `existing` is the set
of names already present in `directory`. -/
def get_unique_filename (existing : List String) (filename : String) : String :=
  uf_loop existing filename (splitext filename).1 (splitext filename).2 (existing.length + 1) 0

theorem candName_data (base ext : String) (n : Nat) :
    (candName base ext n).data = base.data ++ '-' :: ((natStr n).data ++ ext.data) := by
  simp [candName, String.data_append]

theorem uf_cand_injective (filename base ext : String)
    (hfe : filename.data = base.data ++ ext.data) :
    Function.Injective (uf_cand filename base ext) := by
  intro a b h
  match a, b with
  | 0, 0 => rfl
  | 0, b + 1 =>
    exfalso
    have hd := congrArg String.data h
    simp only [uf_cand, candName_data] at hd
    rw [hfe] at hd
    have hd2 := List.append_cancel_left hd
    have hlen := congrArg List.length hd2
    simp at hlen
    omega
  | a + 1, 0 =>
    exfalso
    have hd := congrArg String.data h
    simp only [uf_cand, candName_data] at hd
    rw [hfe] at hd
    have hd2 := List.append_cancel_left hd.symm
    have hlen := congrArg List.length hd2
    simp at hlen
    omega
  | a + 1, b + 1 =>
    have hd := congrArg String.data h
    simp only [uf_cand, candName_data] at hd
    have h2 := List.append_cancel_left hd
    simp only [List.cons.injEq, true_and] at h2
    have h4 := List.append_cancel_right h2
    have h5 : natStr (a + 1) = natStr (b + 1) := String.ext h4
    simpa using natStr_injective h5

theorem uf_exists (existing : List String) (filename base ext : String)
    (hfe : filename.data = base.data ++ ext.data) :
    ∃ k, k ≤ existing.length + 1 ∧ uf_cand filename base ext k ∉ existing := by
  by_contra hcon
  push_neg at hcon
  have hmaps : ∀ a ∈ Finset.range (existing.length + 2),
      uf_cand filename base ext a ∈ existing.toFinset := by
    intro a ha
    rw [List.mem_toFinset]
    have hlt := Finset.mem_range.mp ha
    exact hcon a (by omega)
  have hinj : Set.InjOn (uf_cand filename base ext) ↑(Finset.range (existing.length + 2)) :=
    fun a _ b _ h => uf_cand_injective filename base ext hfe h
  have hcard := Finset.card_le_card_of_injOn _ hmaps hinj
  have hle := List.toFinset_card_le existing
  simp [Finset.card_range] at hcard
  omega

theorem uf_loop_spec (existing : List String) (filename base ext : String) :
    ∀ fuel n, (∃ k, k ≤ fuel ∧ uf_cand filename base ext (n + k) ∉ existing) →
      uf_loop existing filename base ext fuel n ∉ existing ∧
      ∃ k, uf_loop existing filename base ext fuel n = uf_cand filename base ext (n + k) ∧
        ∀ j, j < k → uf_cand filename base ext (n + j) ∈ existing := by
  intro fuel
  induction fuel with
  | zero =>
    intro n h
    obtain ⟨k, hk, hfree⟩ := h
    have hk0 : k = 0 := Nat.le_zero.mp hk
    subst hk0
    refine ⟨by simpa [uf_loop] using hfree, 0, by simp [uf_loop], by omega⟩
  | succ fuel ih =>
    intro n h
    by_cases hmem : uf_cand filename base ext n ∈ existing
    · have hstep : uf_loop existing filename base ext (fuel + 1) n
          = uf_loop existing filename base ext fuel (n + 1) := by
        simp [uf_loop, hmem]
      obtain ⟨k, hk, hfree⟩ := h
      have hkpos : k ≠ 0 := by
        intro h0; subst h0; simp at hfree; exact hfree hmem
      obtain ⟨k', rfl⟩ := Nat.exists_eq_succ_of_ne_zero hkpos
      have hshift : n + (k' + 1) = (n + 1) + k' := by omega
      have := ih (n + 1) ⟨k', by omega, by rw [← hshift]; exact hfree⟩
      obtain ⟨hfree2, k₂, heq, hmin⟩ := this
      refine ⟨hstep ▸ hfree2, k₂ + 1, ?_, ?_⟩
      · rw [hstep, heq]; congr 1; omega
      · intro j hj
        match j with
        | 0 => simpa using hmem
        | j' + 1 =>
          have := hmin j' (by omega)
          have hsh : n + (j' + 1) = (n + 1) + j' := by omega
          rw [hsh]; exact this
    · have hstep : uf_loop existing filename base ext (fuel + 1) n
          = uf_cand filename base ext n := by
        simp [uf_loop, hmem]
      exact ⟨hstep ▸ hmem, 0, by simpa using hstep, by omega⟩

/-! ## Python dicts with string values, and `str()` / truthiness -/

/-- Model of a parsed JSON object (Python dict with string keys and values),
in insertion order. -/
abbrev PyDict := List (String × String)

/-- Model of Python `d.get(k, default)`. -/
def pyGet (d : PyDict) (k dflt : String) : String :=
  match d.find? (fun kv => kv.1 == k) with
  | some kv => kv.2
  | none => dflt

/-- Model of a Python subscript `d[k]`: raises `KeyError` when absent. -/
def pyGetE (d : PyDict) (k : String) : Except String String :=
  match d.find? (fun kv => kv.1 == k) with
  | some kv => Except.ok kv.2
  | none => Except.error ("KeyError: " ++ k)

/-- One `'key': 'value'` entry of the Python `str()` form of a dict. -/
def reprEntry (kv : String × String) : String := "'" ++ kv.1 ++ "': '" ++ kv.2 ++ "'"

/-- Model of Python `str(d)` for a dict with string keys and values. -/
def pyStrDict (d : PyDict) : String :=
  "\x7b" ++ String.intercalate ", " (d.map reprEntry) ++ "\x7d"

/-! ## `is_unreadable` (lines 176-178) and the ambiguity trigger (lines 225-228) -/

/-- Model of `is_unreadable(ai_response)`:
`ai_response.get("category", "").lower() == "unreadable"`. -/
def is_unreadable (ai_response : PyDict) : Bool :=
  pyLower (pyGet ai_response "category" "") == "unreadable"

/-- The OCR-retry trigger of `process_pdf`:
`"unknown" in str(ai_response).lower() or "unidentified" in str(ai_response).lower()`. -/
def ambiguous (ai_response : PyDict) : Bool :=
  pyIn "unknown" (pyLower (pyStrDict ai_response)) ||
    pyIn "unidentified" (pyLower (pyStrDict ai_response))

/-! ## `move_pdf` (lines 181-200) -/

/-- The hard-coded output root `OUTPUT_DIR` of doc_sorter.py (line 25). -/
def OUTPUT_DIR : String := "D:\\Documents\\Filed"

/-- Model of `os.path.join` on the Windows paths used by the script. -/
def pathJoin (a b : String) : String := a ++ "\\" ++ b

/-- Year component of the destination (line 188):
`date[:4] if date and date != "unknown" else "Unkn"`. -/
def yearOf (date : String) : String :=
  if date ≠ "" ∧ date ≠ "unknown" then strTake 4 date else "Unkn"

/-- Model of `move_pdf(file_path, ai_response)`: computes the destination path
of the move, or the uncaught `KeyError` when a field is missing. `dirContents`
lists the names already existing in the destination directory. -/
def move_pdf (dirContents : List String) (ai_response : PyDict) : Except String String :=
  match pyGetE ai_response "category" with
  | .error e => .error e
  | .ok category =>
    match pyGetE ai_response "date" with
    | .error e => .error e
    | .ok date =>
      match pyGetE ai_response "filename" with
      | .error e => .error e
      | .ok filename =>
        .ok (pathJoin
          (pathJoin (pathJoin OUTPUT_DIR (yearOf date)) (yearOf date ++ " - " ++ category))
          (get_unique_filename dirContents filename))

/-! ## Prompt construction of `get_llm_metadata` (lines 152-161) -/

/-- Replace every occurrence of `pat` in the remaining input by `rep`,
leftmost first, non-overlapping (model of Python `str.replace`); the fuel is
at least the input length, and one unit is spent per step. -/
def replaceAllF (pat rep : List Char) : Nat → List Char → List Char
  | 0, l => l
  | _ + 1, [] => []
  | fuel + 1, c :: l =>
    if pat.isPrefixOf (c :: l) then rep ++ replaceAllF pat rep fuel (List.drop (pat.length - 1) l)
    else c :: replaceAllF pat rep fuel l

/-- Model of Python `template.replace(pat, rep)` for a nonempty `pat`. -/
def pyReplace (template pat rep : String) : String :=
  ⟨replaceAllF pat.data rep.data template.data.length template.data⟩

/-- The prompt string sent by `get_llm_metadata(text)` (line 156):
`DOCUMENT_PROMPT.replace("{PDF_TEXT}", text[:3000])`. No redaction is applied
to `text` anywhere on this path. -/
def get_llm_prompt (template text : String) : String :=
  pyReplace template "\x7bPDF_TEXT\x7d" (strTake 3000 text)

/-! ## The per-document orchestrator `process_pdf` (lines 214-242)

The two remote classifications and both extractions are oracles recorded in
the environment; `Option PyDict` is the return of `get_llm_metadata` (`none`
models both transport failures and JSON parse failures, which return `None`).
Exceptions raised inside the `try` block are caught by the outer handler and
end the document in the failed state. -/

structure PipelineEnv where
  nativeText : String
  firstResponse : Option PyDict
  ocrText : String
  secondResponse : Option PyDict
  dirContents : List String

inductive Outcome where
  | skippedLlmError
  | skippedUnreadable
  | filed (dest : String)
  | failedError
deriving DecidableEq, Repr

structure ProcessResult where
  ocrUsed : Bool
  outcome : Outcome
deriving DecidableEq, Repr

/-- Whether the outcome moved the source file (only `Filed` does; every other
outcome leaves the source file in place). -/
def outcomeMoved : Outcome → Bool
  | .filed _ => true
  | _ => false

/-- Model of `process_pdf(filename)`. Control flow, in source order:
`extract_text_with_pypdf`; `get_llm_metadata`; the `if not ai_response`
truthiness check; the `"unknown"/"unidentified"` substring trigger with OCR
retry and reclassification; `is_unreadable` (an `AttributeError` on `None`
when the second classification is absent, caught by the outer handler);
`move_pdf` (a `KeyError` when a field is missing, likewise caught). -/
def process_pdf (env : PipelineEnv) : ProcessResult :=
  match env.firstResponse with
  | none => ⟨false, .skippedLlmError⟩
  | some d =>
    if d.isEmpty then ⟨false, .skippedLlmError⟩
    else if ambiguous d then
      match env.secondResponse with
      | none => ⟨true, .failedError⟩
      | some d2 =>
        if is_unreadable d2 then ⟨true, .skippedUnreadable⟩
        else
          match move_pdf env.dirContents d2 with
          | .ok dest => ⟨true, .filed dest⟩
          | .error _ => ⟨true, .failedError⟩
    else if is_unreadable d then ⟨false, .skippedUnreadable⟩
    else
      match move_pdf env.dirContents d with
      | .ok dest => ⟨false, .filed dest⟩
      | .error _ => ⟨false, .failedError⟩

/-- Model of the `.pdf` suffix filter of `process_pdfs` (line 206). -/
def endsWithPdf (name : String) : Bool := ".pdf".data.isSuffixOf (pyLower name).data

inductive BatchEntry where
  | processed (r : ProcessResult)
  | skippedNonPdf
deriving DecidableEq, Repr

/-- Model of `process_pdfs()`: every directory entry produces exactly one
batch entry; no document outcome aborts the batch. -/
def process_pdfs (batch : List (String × PipelineEnv)) : List BatchEntry :=
  batch.map fun fp => if endsWithPdf fp.1 then .processed (process_pdf fp.2) else .skippedNonPdf

/-! ## `extract_text_with_gpt4_vision` (lines 53-111): handle lifecycle

The oracle fields describe which step faults: `pypdfium2.PdfDocument` raising,
`page.render(...)` raising inside the list comprehension, `encode_image`
raising, or the remote call raising. `handleOpened`/`handleClosed` record
whether the native document handle was acquired and whether `pdf.close()` ran
before the function returned. All exceptions are caught by the single
`except` clause, which returns the empty string. -/

structure VisionEnv where
  openFails : Bool
  renderFails : Bool
  pageCount : Nat
  encodeFails : Bool
  remoteFails : Bool
  remoteText : String

structure VisionResult where
  text : String
  handleOpened : Bool
  handleClosed : Bool
deriving DecidableEq, Repr

/-- Model of `extract_text_with_gpt4_vision(pdf_path)`. The source calls
`pdf.close()` at line 61, after the rendering comprehension and before the
`if not images` check; no `try/finally` guards it. -/
def extract_text_with_gpt4_vision (env : VisionEnv) : VisionResult :=
  if env.openFails then ⟨"", false, false⟩
  else if env.renderFails then ⟨"", true, false⟩
  else if env.pageCount = 0 then ⟨"", true, true⟩
  else if env.encodeFails then ⟨"", true, true⟩
  else if env.remoteFails then ⟨"", true, true⟩
  else ⟨env.remoteText.trim, true, true⟩

/-! ## The redactor `redact_sensitive_info` (lines 114-119)

`re.sub` for the three patterns `\b\d{3}-\d{2}-\d{4}\b`,
`\b\d{4}-\d{4}-\d{4}-\d{4}\b` and `\b\d{9}\b` is embedded by a left-to-right
scanner. A pattern is a list of digit-group sizes (groups separated by
literal hyphens). A word boundary `\b` before a leading digit holds exactly
when the previous character is a non-word character or the string start;
after a trailing digit it holds exactly when the next character is a
non-word character or the string end. Matching is performed against the
original string; replacements are accumulated in the output and scanning
resumes after each match, exactly as `re.sub` does. -/

/-- Consume exactly `n` digits from the input, returning the rest. -/
def takeDigits : Nat → List Char → Option (List Char)
  | 0, l => some l
  | _ + 1, [] => none
  | n + 1, c :: l => if isDigitC c then takeDigits n l else none

/-- Consume `-⟨digits⟩` for each remaining group size. -/
def matchTail : List Nat → List Char → Option (List Char)
  | [], l => some l
  | n :: ns, l =>
    match l with
    | '-' :: l₂ =>
      match takeDigits n l₂ with
      | some r => matchTail ns r
      | none => none
    | _ => none

/-- Consume the full hyphen-grouped digit pattern `gs` from the input. -/
def matchGroups (gs : List Nat) (l : List Char) : Option (List Char) :=
  match gs with
  | [] => none
  | n :: ns =>
    match takeDigits n l with
    | some r => matchTail ns r
    | none => none

/-- Trailing `\b` after the final digit of a match: the rest is empty or
starts with a non-word character. -/
def endOk : List Char → Bool
  | [] => true
  | c :: _ => !isWordC c

/-- Whether a full match (groups plus trailing boundary) starts here. -/
def matchOk (gs : List Nat) (l : List Char) : Bool :=
  match matchGroups gs l with
  | some r => endOk r
  | none => false

/-- The `re.sub` scanner: `w` is the word-ness of the previous character of
the original string (`false` at the string start), so the leading `\b` holds
exactly when `w` is false. The fuel is at least the input length; one unit is
spent per step and every match consumes at least one character. -/
def subScanF (gs : List Nat) (rep : List Char) : Nat → Bool → List Char → List Char
  | 0, _, l => l
  | _ + 1, _, [] => []
  | fuel + 1, w, c :: l =>
    match (if w then none else matchGroups gs (c :: l)) with
    | some r =>
      if endOk r then rep ++ subScanF gs rep fuel true r
      else c :: subScanF gs rep fuel (isWordC c) l
    | none => c :: subScanF gs rep fuel (isWordC c) l

/-- Scanner deciding that no match of `gs` occurs anywhere in the input,
given the word-ness `w` of the previous character. -/
def scanClean (gs : List Nat) : Bool → List Char → Bool
  | _, [] => true
  | w, c :: l => (w || !matchOk gs (c :: l)) && scanClean gs (isWordC c) l

/-- One `re.sub(pattern, rep, s)` call on a whole string. -/
def pySub (gs : List Nat) (rep : List Char) (l : List Char) : List Char :=
  subScanF gs rep l.length false l

/-- Group sizes of `\b\d{3}-\d{2}-\d{4}\b`. -/
def SSN_PAT : List Nat := [3, 2, 4]

/-- Group sizes of `\b\d{4}-\d{4}-\d{4}-\d{4}\b`. -/
def CARD_PAT : List Nat := [4, 4, 4, 4]

/-- Group sizes of `\b\d{9}\b`. -/
def ACCT_PAT : List Nat := [9]

def SSN_TOKEN : List Char := "[REDACTED SSN]".data

def CARD_TOKEN : List Char := "[REDACTED CARD]".data

def ACCT_TOKEN : List Char := "[REDACTED ACCOUNT]".data

/-- Model of `redact_sensitive_info(text)`: the three substitutions in source
order (SSN, then card, then bare 9-digit account). -/
def redact_sensitive_info (s : String) : String :=
  ⟨pySub ACCT_PAT ACCT_TOKEN (pySub CARD_PAT CARD_TOKEN (pySub SSN_PAT SSN_TOKEN s.data))⟩

/-- The prompt of the first classification performed by `process_pdf`
(lines 219-220): the text returned by `extract_text_with_pypdf` is handed to
`get_llm_metadata` as-is; no call to `redact_sensitive_info` occurs anywhere
between extraction and the remote request. -/
def first_prompt (template : String) (env : PipelineEnv) : String :=
  get_llm_prompt template env.nativeText

/-! ## Claims -/

/-- C1 — the claim that every extracted text passes through the redactor
before being sent to the classification service is NOT what the code does:
for a document whose extracted text contains the SSN-like pattern
`123-45-6789`, the prompt actually sent by `get_llm_metadata` still contains
the raw pattern, while the (never-invoked) redactor would have removed it.
This evaluates the code at the failing input. -/
theorem C1_prompt_contains_unredacted_ssn :
    pyIn "123-45-6789"
      (first_prompt "Classify this document:\n\x7bPDF_TEXT\x7d"
        ⟨"SSN 123-45-6789", none, "", none, []⟩) = true ∧
    redact_sensitive_info "SSN 123-45-6789" = "SSN [REDACTED SSN]" ∧
    pyIn "123-45-6789"
      (get_llm_prompt "Classify this document:\n\x7bPDF_TEXT\x7d"
        (redact_sensitive_info "SSN 123-45-6789")) = false := by
  refine ⟨by decide, by decide, by decide⟩

/-- C2 — the OCR retry is triggered if and only if the lowercase string form
of the (truthy) first classification result contains `"unknown"` or
`"unidentified"` as a substring. -/
theorem C2_ocr_retry_iff_substring (env : PipelineEnv) (d : PyDict)
    (h1 : env.firstResponse = some d) (h2 : d ≠ []) :
    (process_pdf env).ocrUsed =
      (pyIn "unknown" (pyLower (pyStrDict d)) || pyIn "unidentified" (pyLower (pyStrDict d))) := by
  have hne : d.isEmpty = false := by simp [List.isEmpty_iff]; exact h2
  have hrhs : (pyIn "unknown" (pyLower (pyStrDict d)) ||
      pyIn "unidentified" (pyLower (pyStrDict d))) = ambiguous d := rfl
  rw [hrhs]
  by_cases hamb : ambiguous d
  · simp only [process_pdf, h1, hne, hamb, Bool.false_eq_true, if_false, if_true]
    cases env.secondResponse with
    | none => rfl
    | some d2 =>
      by_cases hu : is_unreadable d2
      · simp [hu]
      · simp only [hu, Bool.false_eq_true, if_false]
        cases move_pdf env.dirContents d2 <;> rfl
  · rw [Bool.not_eq_true] at hamb
    simp only [process_pdf, h1, hne, hamb, Bool.false_eq_true, if_false]
    by_cases hu : is_unreadable d
    · simp [hu]
    · simp only [hu, Bool.false_eq_true, if_false]
      cases move_pdf env.dirContents d <;> rfl

theorem C2_ocr_retry_iff_substring_witness :
    (process_pdf ⟨"", some [("date", "unknown")], "",
        some [("category", "Letter"), ("date", "2024-01-02"), ("filename", "letter.pdf")],
        []⟩).ocrUsed =
      (pyIn "unknown" (pyLower (pyStrDict [("date", "unknown")])) ||
        pyIn "unidentified" (pyLower (pyStrDict [("date", "unknown")]))) :=
  C2_ocr_retry_iff_substring _ _ rfl (by decide)

/-- C3 — `get_unique_filename` returns the suggested name when it is free,
otherwise the name with `-n` inserted before the extension for the smallest
positive `n` whose name is free; the returned name never collides with an
existing entry. -/
theorem C3_unique_filename (existing : List String) (filename : String) :
    (filename ∉ existing → get_unique_filename existing filename = filename) ∧
    get_unique_filename existing filename ∉ existing ∧
    (filename ∈ existing →
      ∃ n, 0 < n ∧
        get_unique_filename existing filename
          = candName (splitext filename).1 (splitext filename).2 n ∧
        candName (splitext filename).1 (splitext filename).2 n ∉ existing ∧
        ∀ m, 0 < m → m < n →
          candName (splitext filename).1 (splitext filename).2 m ∈ existing) := by
  have hfe : filename.data = (splitext filename).1.data ++ (splitext filename).2.data := by
    have h := congrArg String.data (splitext_append filename)
    simpa [String.data_append] using h.symm
  obtain ⟨k₀, hk₀, hfree₀⟩ := uf_exists existing filename _ _ hfe
  obtain ⟨hfree, k, heq, hmin⟩ :=
    uf_loop_spec existing filename (splitext filename).1 (splitext filename).2
      (existing.length + 1) 0 ⟨k₀, hk₀, by simpa using hfree₀⟩
  have hguf : get_unique_filename existing filename
      = uf_loop existing filename (splitext filename).1 (splitext filename).2
          (existing.length + 1) 0 := rfl
  simp only [Nat.zero_add] at heq hmin
  refine ⟨?_, hguf ▸ hfree, ?_⟩
  · intro hnm
    rcases Nat.eq_zero_or_pos k with hk0 | hkpos
    · subst hk0
      rw [hguf, heq]; rfl
    · exact absurd (by simpa [uf_cand] using hmin 0 hkpos) hnm
  · intro hmem
    match k, heq, hmin with
    | 0, heq, hmin =>
      exfalso
      rw [heq] at hfree
      exact hfree hmem
    | n + 1, heq, hmin =>
      refine ⟨n + 1, by omega, ?_, ?_, ?_⟩
      · rw [hguf, heq]; rfl
      · have : uf_cand filename (splitext filename).1 (splitext filename).2 (n + 1)
            = candName (splitext filename).1 (splitext filename).2 (n + 1) := rfl
        rw [← this, ← heq, ← hguf]; exact hfree
      · intro m hm0 hmn
        obtain ⟨m', rfl⟩ := Nat.exists_eq_succ_of_ne_zero (by omega : m ≠ 0)
        simpa [uf_cand] using hmin (m' + 1) hmn

theorem C3_unique_filename_witness :
    get_unique_filename ["report.pdf"] "doc.pdf" = "doc.pdf" :=
  (C3_unique_filename ["report.pdf"] "doc.pdf").1 (by decide)

/-- C4 (amended) — for a classification result containing the `category`,
`date` and `filename` keys, the destination directory is
`OUTPUT_DIR/year/year - category` where `year` is the first four characters
of `date` when `date` is non-empty and not `"unknown"`, and the placeholder
`"Unkn"` when `date` is empty or `"unknown"`. (When the `date` key is absent
the original claim fails: `move_pdf` raises `KeyError` instead of using the
placeholder — see the counterexample.) -/
theorem C4_destination_directory (dirContents : List String) (d : PyDict)
    (cat date fn : String)
    (hc : pyGetE d "category" = .ok cat) (hd : pyGetE d "date" = .ok date)
    (hf : pyGetE d "filename" = .ok fn) :
    move_pdf dirContents d
      = .ok (pathJoin
          (pathJoin (pathJoin OUTPUT_DIR (yearOf date)) (yearOf date ++ " - " ++ cat))
          (get_unique_filename dirContents fn)) ∧
    (date ≠ "" → date ≠ "unknown" → yearOf date = strTake 4 date) ∧
    (date = "" ∨ date = "unknown" → yearOf date = "Unkn") := by
  refine ⟨?_, ?_, ?_⟩
  · simp only [move_pdf, hc, hd, hf]
  · intro h1 h2; simp [yearOf, h1, h2]
  · rintro (h | h) <;> simp [yearOf, h]

theorem C4_destination_directory_witness :
    move_pdf [] [("category", "Invoice"), ("date", "2023-04-01"), ("filename", "invoice.pdf")]
      = .ok (pathJoin
          (pathJoin (pathJoin OUTPUT_DIR (yearOf "2023-04-01")) (yearOf "2023-04-01" ++ " - " ++ "Invoice"))
          (get_unique_filename [] "invoice.pdf")) :=
  (C4_destination_directory []
    [("category", "Invoice"), ("date", "2023-04-01"), ("filename", "invoice.pdf")]
    "Invoice" "2023-04-01" "invoice.pdf" rfl rfl rfl).1

/-- C4 — counterexample to the claim as stated: when the `date` key is absent
from the classification result, `move_pdf` does not fall back to the `"Unkn"`
placeholder directory; it raises `KeyError` and no destination is produced. -/
theorem C4_absent_date_counterexample :
    move_pdf [] [("category", "Invoice"), ("filename", "inv.pdf")] = .error "KeyError: date" ∧
    move_pdf [] [("category", "Invoice"), ("filename", "inv.pdf")]
      ≠ .ok (pathJoin (pathJoin (pathJoin OUTPUT_DIR "Unkn") ("Unkn" ++ " - " ++ "Invoice"))
          (get_unique_filename [] "inv.pdf")) := by
  have h : move_pdf [] [("category", "Invoice"), ("filename", "inv.pdf")]
      = .error "KeyError: date" := rfl
  exact ⟨h, by rw [h]; exact fun hc => Except.noConfusion hc⟩

/-- C5 — a classification result is unreadable exactly when its `category`
field (default `""`), lower-cased, equals `"unreadable"`; the predicate
depends on no other field; `Unreadable` qualifies and `unreadable memo` does
not. -/
theorem C5_unreadable_predicate (d : PyDict) :
    (is_unreadable d = true ↔ pyLower (pyGet d "category" "") = "unreadable") ∧
    (∀ d₂ : PyDict, pyGet d "category" "" = pyGet d₂ "category" "" →
      is_unreadable d = is_unreadable d₂) ∧
    is_unreadable [("category", "Unreadable")] = true ∧
    is_unreadable [("category", "unreadable memo")] = false := by
  refine ⟨?_, ?_, by decide, by decide⟩
  · simp [is_unreadable]
  · intro d₂ h
    simp [is_unreadable, h]

theorem C5_unreadable_predicate_witness :
    is_unreadable [("category", "Receipt")]
      = is_unreadable [("category", "Receipt"), ("date", "2020-01-01")] :=
  (C5_unreadable_predicate [("category", "Receipt")]).2.1
    [("category", "Receipt"), ("date", "2020-01-01")] (by decide)

/-- C6 — when the first classification is truthy and triggers the OCR retry
and the second classification is absent, the document ends failed (the
`is_unreadable(None)` attribute error is caught by the outer handler): it is
not filed, the source file is not moved, and the batch still produces one
entry per directory item. -/
theorem C6_second_classification_absent (env : PipelineEnv) (d : PyDict)
    (h1 : env.firstResponse = some d) (h2 : d ≠ []) (h3 : ambiguous d = true)
    (h4 : env.secondResponse = none) :
    process_pdf env = ⟨true, .failedError⟩ ∧
    outcomeMoved (process_pdf env).outcome = false ∧
    ∀ batch : List (String × PipelineEnv), (process_pdfs batch).length = batch.length := by
  have hne : d.isEmpty = false := by simp [List.isEmpty_iff]; exact h2
  have hp : process_pdf env = ⟨true, .failedError⟩ := by
    simp only [process_pdf, h1, hne, h3, h4, Bool.false_eq_true, if_false, if_true]
  exact ⟨hp, by rw [hp]; rfl, fun batch => by simp [process_pdfs]⟩

theorem C6_second_classification_absent_witness :
    process_pdf ⟨"", some [("date", "unknown")], "", none, []⟩ = ⟨true, .failedError⟩ ∧
    outcomeMoved (process_pdf ⟨"", some [("date", "unknown")], "", none, []⟩).outcome = false ∧
    ∀ batch : List (String × PipelineEnv), (process_pdfs batch).length = batch.length :=
  C6_second_classification_absent _ _ rfl (by decide) (by decide) rfl

/-- C7 — the claim that the native document handle is released on every path
fails on the rendering-fault path: when `page.render(...)` raises inside the
list comprehension, the exception propagates past line 61 before `pdf.close()`
runs, the outer handler returns `""`, and the opened handle is never closed.
This evaluates the code at the failing input (a PDF whose page rendering
faults). -/
theorem C7_handle_leaked_on_render_fault :
    extract_text_with_gpt4_vision ⟨false, true, 3, false, false, "text"⟩
      = ⟨"", true, false⟩ ∧
    (extract_text_with_gpt4_vision ⟨false, true, 3, false, false, "text"⟩).handleOpened = true ∧
    (extract_text_with_gpt4_vision ⟨false, true, 3, false, false, "text"⟩).handleClosed = false :=
  ⟨rfl, rfl, rfl⟩

/-- C9 — a successfully parsed but falsy first classification (the empty JSON
object `{}`) is treated exactly like an absent one, because `process_pdf`
tests `if not ai_response`: the document is abandoned before any OCR retry or
filing and nothing is moved. -/
theorem C9_falsy_result_like_absent (env : PipelineEnv) :
    process_pdf { env with firstResponse := some [] }
      = process_pdf { env with firstResponse := none } ∧
    process_pdf { env with firstResponse := some [] } = ⟨false, .skippedLlmError⟩ ∧
    (process_pdf { env with firstResponse := some [] }).ocrUsed = false ∧
    outcomeMoved (process_pdf { env with firstResponse := some [] }).outcome = false :=
  ⟨rfl, rfl, rfl, rfl⟩

/-- C10 — when `date` is non-empty, not `"unknown"`, and shorter than four
characters, the whole `date` string is used as the year component, without
padding or error. -/
theorem C10_short_date_whole_year (dirContents : List String) (d : PyDict)
    (cat date fn : String)
    (hc : pyGetE d "category" = .ok cat) (hd : pyGetE d "date" = .ok date)
    (hf : pyGetE d "filename" = .ok fn)
    (h1 : date ≠ "") (h2 : date ≠ "unknown") (h3 : date.length < 4) :
    move_pdf dirContents d
      = .ok (pathJoin (pathJoin (pathJoin OUTPUT_DIR date) (date ++ " - " ++ cat))
          (get_unique_filename dirContents fn)) := by
  have hy : yearOf date = date := by
    have ht : strTake 4 date = date := by
      apply String.ext
      exact List.take_of_length_le (by
        have hl : date.length = date.data.length := rfl
        omega)
    simp [yearOf, h1, h2, ht]
  simp only [move_pdf, hc, hd, hf, hy]

theorem C10_short_date_whole_year_witness :
    move_pdf [] [("category", "Note"), ("date", "99"), ("filename", "n.pdf")]
      = .ok (pathJoin (pathJoin (pathJoin OUTPUT_DIR "99") ("99" ++ " - " ++ "Note"))
          (get_unique_filename [] "n.pdf")) :=
  C10_short_date_whole_year [] [("category", "Note"), ("date", "99"), ("filename", "n.pdf")]
    "Note" "99" "n.pdf" rfl rfl rfl (by decide) (by decide) (by decide)

/-! ## Idempotence of the redactor

The proof follows the informal argument that (i) a replacement token starts
with `[` and contains no digit, so no pattern can start inside it or extend
across it, (ii) every match starts and ends with a digit and is delimited by
word boundaries, so replacing one match can neither create a new match nor
unblock a previously blocked one, and (iii) `re.sub` replaces every match of
its pattern (matches of these patterns never overlap). Hence the output of
`redact_sensitive_info` contains no match of any of the three patterns, and a
second application is the identity. -/

/-- Well-formedness of a pattern: at least one group, all groups nonempty. -/
def PatOk (gs : List Nat) : Prop := gs ≠ [] ∧ ∀ k ∈ gs, 0 < k

/-- Well-formedness of a replacement token: digit-free and starting with `[`. -/
def RepOk (rep : List Char) : Prop :=
  (∀ c ∈ rep, isDigitC c = false) ∧ ∃ t, rep = '[' :: t

theorem patok_ssn : PatOk SSN_PAT := by constructor <;> decide

theorem patok_card : PatOk CARD_PAT := by constructor <;> decide

theorem patok_acct : PatOk ACCT_PAT := by constructor <;> decide

theorem repok_ssn : RepOk SSN_TOKEN :=
  ⟨by decide, "REDACTED SSN]".data, by decide⟩

theorem repok_card : RepOk CARD_TOKEN :=
  ⟨by decide, "REDACTED CARD]".data, by decide⟩

theorem repok_acct : RepOk ACCT_TOKEN :=
  ⟨by decide, "REDACTED ACCOUNT]".data, by decide⟩

theorem digit_isWord (c : Char) (h : isDigitC c = true) : isWordC c = true := by
  simp only [isDigitC] at h
  simp [isWordC, Char.isAlphanum, h]

/-- Word-ness of the character preceding the position right after `a`, when
the character before `a` has word-ness `w`. -/
def wordAfter (w : Bool) (a : List Char) : Bool := a.foldl (fun _ c => isWordC c) w

theorem wordAfter_nil (w : Bool) : wordAfter w [] = w := rfl

theorem wordAfter_cons (w : Bool) (c : Char) (a : List Char) :
    wordAfter w (c :: a) = wordAfter (isWordC c) a := rfl

theorem wordAfter_concat (w : Bool) (a : List Char) (x : Char) :
    wordAfter w (a ++ [x]) = isWordC x := by
  simp [wordAfter, List.foldl_append]

theorem takeDigits_spec : ∀ (n : Nat) (l r : List Char), takeDigits n l = some r →
    ∃ m, l = m ++ r ∧ m.length = n ∧ (∀ c ∈ m, isDigitC c = true) ∧
      ∀ r', takeDigits n (m ++ r') = some r' := by
  intro n
  induction n with
  | zero =>
    intro l r h
    simp only [takeDigits, Option.some.injEq] at h
    exact ⟨[], by simp [h], rfl, by simp, fun r' => rfl⟩
  | succ n ih =>
    intro l r h
    match l with
    | [] => exact absurd h (by simp [takeDigits])
    | c :: l₂ =>
      simp only [takeDigits] at h
      by_cases hc : isDigitC c = true
      · rw [if_pos hc] at h
        obtain ⟨m₂, hl, hlen, hdig, hdet⟩ := ih l₂ r h
        refine ⟨c :: m₂, by simp [hl], by simp [hlen], ?_, ?_⟩
        · intro x hx
          rcases List.mem_cons.mp hx with hx | hx
          · subst hx; exact hc
          · exact hdig x hx
        · intro r'
          simp only [List.cons_append, takeDigits, if_pos hc]
          exact hdet r'
      · rw [if_neg hc] at h
        exact absurd h (by simp)

theorem matchTail_spec : ∀ (ns : List Nat), (∀ k ∈ ns, 0 < k) →
    ∀ (l r : List Char), matchTail ns l = some r →
    ∃ m, l = m ++ r ∧ (∀ c ∈ m, isDigitC c = true ∨ c = '-') ∧
      (∀ r', matchTail ns (m ++ r') = some r') ∧
      (m = [] ∨ ∃ m₀ c₁, m = m₀ ++ [c₁] ∧ isDigitC c₁ = true) := by
  intro ns
  induction ns with
  | nil =>
    intro hpos l r h
    simp only [matchTail, Option.some.injEq] at h
    exact ⟨[], by simp [h], by simp, fun r' => rfl, Or.inl rfl⟩
  | cons n ns ih =>
    intro hpos l r h
    match l with
    | [] => simp [matchTail] at h
    | c :: l₂ =>
      by_cases hc : c = '-'
      · subst hc
        simp only [matchTail] at h
        match htd : takeDigits n l₂ with
        | some r₁ =>
          rw [htd] at h
          obtain ⟨mt, hl₂, hlen, hdig, hdet₁⟩ := takeDigits_spec n l₂ r₁ htd
          obtain ⟨m₂, hr₁, hchar₂, hdet₂, hlast₂⟩ :=
            ih (fun k hk => hpos k (by simp [hk])) r₁ r h
          have hmtne : mt ≠ [] := by
            intro hmt
            rw [hmt] at hlen
            simp at hlen
            have := hpos n (by simp)
            omega
          refine ⟨'-' :: (mt ++ m₂), by simp [hl₂, hr₁], ?_, ?_, ?_⟩
          · intro x hx
            rcases List.mem_cons.mp hx with hx | hx
            · exact Or.inr hx
            · rcases List.mem_append.mp hx with hx | hx
              · exact Or.inl (hdig x hx)
              · exact hchar₂ x hx
          · intro r'
            simp only [List.cons_append, matchTail, List.append_assoc]
            rw [hdet₁ (m₂ ++ r')]
            exact hdet₂ r'
          · right
            rcases hlast₂ with hm₂ | ⟨m₀, c₁, hm₀, hc₁⟩
            · subst hm₂
              rcases List.eq_nil_or_concat mt with hmt | ⟨mt₀, cl, hmt⟩
              · exact absurd hmt hmtne
              · refine ⟨'-' :: mt₀, cl, by simp [hmt], hdig cl (by simp [hmt])⟩
            · exact ⟨'-' :: (mt ++ m₀), c₁, by simp [hm₀], hc₁⟩
        | none =>
          rw [htd] at h
          simp at h
      · exfalso
        have hnone : matchTail (n :: ns) (c :: l₂) = none := by
          unfold matchTail
          split
          · rename_i l₃ heq
            exact absurd (List.cons.inj heq).1 hc
          · rfl
        rw [hnone] at h
        simp at h

theorem matchGroups_spec (gs : List Nat) (hgs : PatOk gs) :
    ∀ (l r : List Char), matchGroups gs l = some r →
    ∃ m, l = m ++ r ∧ m ≠ [] ∧ (∀ c ∈ m, isDigitC c = true ∨ c = '-') ∧
      (∃ c₀ m₁, m = c₀ :: m₁ ∧ isDigitC c₀ = true) ∧
      (∃ m₀ c₁, m = m₀ ++ [c₁] ∧ isDigitC c₁ = true) ∧
      (∀ r', matchGroups gs (m ++ r') = some r') := by
  obtain ⟨hne, hpos⟩ := hgs
  match gs, hne with
  | n :: ns, _ =>
    intro l r h
    simp only [matchGroups] at h
    match htd : takeDigits n l with
    | some r₁ =>
      rw [htd] at h
      obtain ⟨mt, hl, hlen, hdig, hdet₁⟩ := takeDigits_spec n l r₁ htd
      obtain ⟨m₂, hr₁, hchar₂, hdet₂, hlast₂⟩ :=
        matchTail_spec ns (fun k hk => hpos k (by simp [hk])) r₁ r h
      have hmtne : mt ≠ [] := by
        intro hmt
        rw [hmt] at hlen
        simp at hlen
        have := hpos n (by simp)
        omega
      refine ⟨mt ++ m₂, by simp [hl, hr₁], by simp [hmtne], ?_, ?_, ?_, ?_⟩
      · intro x hx
        rcases List.mem_append.mp hx with hx | hx
        · exact Or.inl (hdig x hx)
        · exact hchar₂ x hx
      · obtain ⟨c₀, mt', hmt⟩ := List.exists_cons_of_ne_nil hmtne
        exact ⟨c₀, mt' ++ m₂, by simp [hmt], hdig c₀ (by simp [hmt])⟩
      · rcases hlast₂ with hm₂ | ⟨m₀, c₁, hm₀, hc₁⟩
        · subst hm₂
          rcases List.eq_nil_or_concat mt with hmt | ⟨mt₀, cl, hmt⟩
          · exact absurd hmt hmtne
          · exact ⟨mt₀, cl, by simp [hmt], hdig cl (by simp [hmt])⟩
        · exact ⟨mt ++ m₀, c₁, by simp [hm₀], hc₁⟩
      · intro r'
        simp only [matchGroups, List.append_assoc]
        rw [hdet₁ (m₂ ++ r')]
        exact hdet₂ r'
    | none =>
      rw [htd] at h
      simp at h

theorem matchGroups_head_digit (gs : List Nat) (hgs : PatOk gs) (c : Char)
    (l r : List Char) (h : matchGroups gs (c :: l) = some r) : isDigitC c = true := by
  obtain ⟨m, hm, _, _, ⟨c₀, m₁, hm₁, hc₀⟩, _, _⟩ := matchGroups_spec gs hgs (c :: l) r h
  rw [hm₁] at hm
  exact (List.cons.inj hm).1 ▸ hc₀

theorem matchGroups_none_of_not_digit (gs : List Nat) (hgs : PatOk gs) (c : Char)
    (l : List Char) (hc : isDigitC c = false) : matchGroups gs (c :: l) = none := by
  match hm : matchGroups gs (c :: l) with
  | none => rfl
  | some r =>
    have := matchGroups_head_digit gs hgs c l r hm
    rw [this] at hc
    exact absurd hc (by simp)

theorem matchOk_false_of_not_digit (gs : List Nat) (hgs : PatOk gs) (c : Char)
    (l : List Char) (hc : isDigitC c = false) : matchOk gs (c :: l) = false := by
  simp [matchOk, matchGroups_none_of_not_digit gs hgs c l hc]

theorem matchOk_true_iff (gs : List Nat) (l : List Char) :
    matchOk gs l = true ↔ ∃ r, matchGroups gs l = some r ∧ endOk r = true := by
  constructor
  · intro h
    unfold matchOk at h
    split at h
    · rename_i r hm
      exact ⟨r, hm, h⟩
    · simp at h
  · rintro ⟨r, hm, he⟩
    unfold matchOk
    rw [hm]
    exact he

/-! Reduction shapes of one scanner step. -/

theorem subScanF_zero (gs : List Nat) (rep : List Char) (w : Bool) (l : List Char) :
    subScanF gs rep 0 w l = l := rfl

theorem subScanF_nil (gs : List Nat) (rep : List Char) (fuel : Nat) (w : Bool) :
    subScanF gs rep fuel w [] = [] := by
  cases fuel <;> rfl

theorem subScanF_cons_true (gs : List Nat) (rep : List Char) (fuel : Nat)
    (c : Char) (l : List Char) :
    subScanF gs rep (fuel + 1) true (c :: l) = c :: subScanF gs rep fuel (isWordC c) l := rfl

theorem subScanF_cons_nomatch (gs : List Nat) (rep : List Char) (fuel : Nat)
    (c : Char) (l : List Char) (h : matchGroups gs (c :: l) = none) :
    subScanF gs rep (fuel + 1) false (c :: l) = c :: subScanF gs rep fuel (isWordC c) l := by
  simp [subScanF, h]

theorem subScanF_cons_noend (gs : List Nat) (rep : List Char) (fuel : Nat)
    (c : Char) (l r : List Char) (h : matchGroups gs (c :: l) = some r)
    (he : endOk r = false) :
    subScanF gs rep (fuel + 1) false (c :: l) = c :: subScanF gs rep fuel (isWordC c) l := by
  simp [subScanF, h, he]

theorem subScanF_cons_match (gs : List Nat) (rep : List Char) (fuel : Nat)
    (c : Char) (l r : List Char) (h : matchGroups gs (c :: l) = some r)
    (he : endOk r = true) :
    subScanF gs rep (fuel + 1) false (c :: l) = rep ++ subScanF gs rep fuel true r := by
  simp [subScanF, h, he]

/-- Case analysis of one scanner step: either the step keeps the head
character (and no replacement starts here), or a replacement starts here. -/
theorem subScanF_cases (gs : List Nat) (rep : List Char) (fuel : Nat) (w : Bool)
    (c : Char) (l : List Char) :
    (subScanF gs rep (fuel + 1) w (c :: l) = c :: subScanF gs rep fuel (isWordC c) l ∧
      (w = true ∨ matchOk gs (c :: l) = false)) ∨
    (∃ r, w = false ∧ matchGroups gs (c :: l) = some r ∧ endOk r = true ∧
      subScanF gs rep (fuel + 1) w (c :: l) = rep ++ subScanF gs rep fuel true r) := by
  cases w with
  | true => exact Or.inl ⟨subScanF_cons_true gs rep fuel c l, Or.inl rfl⟩
  | false =>
    match hm : matchGroups gs (c :: l) with
    | none =>
      exact Or.inl ⟨subScanF_cons_nomatch gs rep fuel c l hm, Or.inr (by simp [matchOk, hm])⟩
    | some r =>
      match he : endOk r with
      | false =>
        exact Or.inl ⟨subScanF_cons_noend gs rep fuel c l r hm he,
          Or.inr (by simp [matchOk, hm, he])⟩
      | true => exact Or.inr ⟨r, rfl, rfl, he, subScanF_cons_match gs rep fuel c l r hm he⟩

theorem scanClean_cons (gs : List Nat) (w : Bool) (c : Char) (l : List Char) :
    scanClean gs w (c :: l) = ((w || !matchOk gs (c :: l)) && scanClean gs (isWordC c) l) := rfl

/-- Scanning over a digit-free segment finds no match start; only the final
word-ness matters for the remainder. -/
theorem scanClean_append_nodigit (gs : List Nat) (hgs : PatOk gs) :
    ∀ (a : List Char), (∀ c ∈ a, isDigitC c = false) →
    ∀ (w : Bool) (b : List Char),
      scanClean gs w (a ++ b) = scanClean gs (wordAfter w a) b := by
  intro a
  induction a with
  | nil => intro _ w b; rfl
  | cons c a ih =>
    intro ha w b
    have hc : isDigitC c = false := ha c (by simp)
    rw [List.cons_append, scanClean_cons, wordAfter_cons]
    rw [matchOk_false_of_not_digit gs hgs c (a ++ b) hc]
    simp only [Bool.not_false, Bool.or_true, Bool.true_and]
    exact ih (fun x hx => ha x (by simp [hx])) (isWordC c) b

/-- A clean scan of `m ++ b` yields a clean scan of `b` from the carried-over
word-ness. -/
theorem scanClean_suffix (gs : List Nat) :
    ∀ (m : List Char) (w : Bool) (b : List Char),
      scanClean gs w (m ++ b) = true → scanClean gs (wordAfter w m) b = true := by
  intro m
  induction m with
  | nil => intro w b h; exact h
  | cons c m ih =>
    intro w b h
    rw [List.cons_append, scanClean_cons, Bool.and_eq_true] at h
    rw [wordAfter_cons]
    exact ih (isWordC c) b h.2

/-- Cleanliness does not depend on the preceding word-ness when the first
character is not a digit (no match can start at a non-digit). -/
theorem scanClean_anyW (gs : List Nat) (hgs : PatOk gs) (w₁ w₂ : Bool) (l : List Char)
    (hhead : l = [] ∨ ∃ x t, l = x :: t ∧ isDigitC x = false)
    (h : scanClean gs w₁ l = true) : scanClean gs w₂ l = true := by
  rcases hhead with rfl | ⟨x, t, rfl, hx⟩
  · rfl
  · rw [scanClean_cons, Bool.and_eq_true] at h
    rw [scanClean_cons, Bool.and_eq_true]
    refine ⟨?_, h.2⟩
    rw [matchOk_false_of_not_digit gs hgs x t hx]
    simp

/-- After a match, the trailing boundary guarantees the scan output of the
rest is empty or starts with a non-digit character. -/
theorem subScanF_headshape (gs : List Nat) (rep : List Char) (hgs : PatOk gs) :
    ∀ (fuel : Nat) (w : Bool) (r : List Char), endOk r = true →
      subScanF gs rep fuel w r = [] ∨
      ∃ x t, subScanF gs rep fuel w r = x :: t ∧ isDigitC x = false := by
  intro fuel w r he
  match r with
  | [] => exact Or.inl (subScanF_nil gs rep fuel w)
  | c :: t =>
    have hcw : isWordC c = false := by
      simp only [endOk] at he
      simpa using he
    have hcd : isDigitC c = false := by
      match hd : isDigitC c with
      | false => rfl
      | true => rw [digit_isWord c hd] at hcw; exact absurd hcw (by simp)
    match fuel with
    | 0 => exact Or.inr ⟨c, t, rfl, hcd⟩
    | fuel + 1 =>
      cases w with
      | true =>
        exact Or.inr ⟨c, subScanF gs rep fuel (isWordC c) t,
          subScanF_cons_true gs rep fuel c t, hcd⟩
      | false =>
        exact Or.inr ⟨c, subScanF gs rep fuel (isWordC c) t,
          subScanF_cons_nomatch gs rep fuel c t
            (matchGroups_none_of_not_digit gs hgs c t hcd), hcd⟩

/-- A clean input is left unchanged by the scanner (`re.sub` with no match is
the identity), for any fuel. -/
theorem subScanF_id_of_clean (gs : List Nat) (rep : List Char) :
    ∀ (fuel : Nat) (w : Bool) (l : List Char), scanClean gs w l = true →
      subScanF gs rep fuel w l = l := by
  intro fuel
  induction fuel with
  | zero => intro w l _; rfl
  | succ fuel ih =>
    intro w l h
    match l with
    | [] => exact subScanF_nil gs rep (fuel + 1) w
    | c :: t =>
      rw [scanClean_cons, Bool.and_eq_true] at h
      have htail := ih (isWordC c) t h.2
      rcases subScanF_cases gs rep fuel w c t with ⟨hred, _⟩ | ⟨r, hw, hm, he, hred⟩
      · rw [hred, htail]
      · exfalso
        subst hw
        have hmo : matchOk gs (c :: t) = true := by
          unfold matchOk
          rw [hm]
          exact he
        rcases h.1 with h1
        rw [hmo] at h1
        simp at h1

/-- First-divergence characterization of a scan: either no replacement ever
fires (the output is the input, which also covers fuel exhaustion), or the
input splits as `a ++ b` with the first replacement at the start of `b`,
where the boundary before `b` holds in the original input. -/
theorem subScanF_divergence (gs : List Nat) (rep : List Char) :
    ∀ (fuel : Nat) (w : Bool) (l : List Char),
      subScanF gs rep fuel w l = l ∨
      ∃ a b r fuel', l = a ++ b ∧
        subScanF gs rep fuel w l = a ++ (rep ++ subScanF gs rep fuel' true r) ∧
        matchGroups gs b = some r ∧ endOk r = true ∧
        ((a = [] ∧ w = false) ∨ ∃ a₀ x, a = a₀ ++ [x] ∧ isWordC x = false) := by
  intro fuel
  induction fuel with
  | zero => intro w l; exact Or.inl rfl
  | succ fuel ih =>
    intro w l
    match l with
    | [] => exact Or.inl (subScanF_nil gs rep (fuel + 1) w)
    | c :: t =>
      rcases subScanF_cases gs rep fuel w c t with ⟨hred, _⟩ | ⟨r, hw, hm, he, hred⟩
      · rcases ih (isWordC c) t with hL | ⟨a', b, r, fuel', hsplit, hout, hmg, hend, hcond⟩
        · exact Or.inl (by rw [hred, hL])
        · right
          refine ⟨c :: a', b, r, fuel', by simp [hsplit],
            by rw [hred, hout]; simp, hmg, hend, Or.inr ?_⟩
          rcases hcond with ⟨ha', hwc⟩ | ⟨a₀, x, ha₀, hx⟩
          · subst ha'
            exact ⟨[], c, by simp, hwc⟩
          · exact ⟨c :: a₀, x, by simp [ha₀], hx⟩
      · right
        exact ⟨[], c :: t, r, fuel, by simp, by rw [hred]; simp, hm, he, Or.inl ⟨rfl, hw⟩⟩

/-- Transfer of a match across one substitution scan: if a full match of
`gsp` starts at `c` in front of the scanned output of `rest`, then a full
match of `gsp` already starts at `c` in front of `rest` itself. This captures
why replacing earlier matches can neither create nor unblock a match. -/
theorem matchOk_transfer (gsp gsq : List Nat) (repq : List Char)
    (hp : PatOk gsp) (hrq : ∃ tq, repq = '[' :: tq) :
    ∀ (fuel : Nat) (rest : List Char) (c : Char),
      matchOk gsp (c :: subScanF gsq repq fuel (isWordC c) rest) = true →
      matchOk gsp (c :: rest) = true := by
  intro fuel rest c hmo
  obtain ⟨r₂, hmg₂, hend₂⟩ := (matchOk_true_iff gsp _).mp hmo
  obtain ⟨m, hm_split, hm_ne, hm_chars, ⟨c₀, m₁, hm_cons, hc₀⟩, ⟨m₀, c₁, hm_concat, hc₁⟩, hdet⟩ :=
    matchGroups_spec gsp hp _ r₂ hmg₂
  have hccons := hm_split
  rw [hm_cons, List.cons_append] at hccons
  have hceq : c = c₀ := (List.cons.inj hccons).1
  subst hceq
  have hcd : isDigitC c = true := hc₀
  have hcw : isWordC c = true := digit_isWord c hcd
  have hout_eq : subScanF gsq repq fuel (isWordC c) rest = m₁ ++ r₂ :=
    (List.cons.inj hccons).2
  rcases subScanF_divergence gsq repq fuel (isWordC c) rest with
    hL | ⟨a, b, rq, fuel', hsplit, hout, hmgq, hendq, hcond⟩
  · rw [hL] at hmg₂
    exact (matchOk_true_iff gsp _).mpr ⟨r₂, hmg₂, hend₂⟩
  · rw [hout] at hout_eq
    -- boundary contradiction when the divergence point is exactly the end of
    -- the match window
    have hafalse : a = m₁ → False := by
      intro ham
      rcases hcond with ⟨ha_nil, hw_false⟩ | ⟨a₀, x, ha₀, hx⟩
      · rw [hw_false] at hcw
        simp at hcw
      · have hm₁x : m₁ = a₀ ++ [x] := by rw [← ham, ha₀]
        have h1 : m.getLast? = some c₁ := by
          rw [hm_concat]
          exact List.getLast?_concat m₀
        have h2 : m.getLast? = some x := by
          rw [hm_cons, hm₁x, ← List.cons_append]
          exact List.getLast?_concat (c :: a₀)
        have hxc : x = c₁ := by
          rw [h1] at h2
          exact (Option.some.inj h2).symm
        rw [hxc] at hx
        rw [digit_isWord c₁ hc₁] at hx
        simp at hx
    rcases List.append_eq_append_iff.mp hout_eq.symm with ⟨ws, hws1, hws2⟩ | ⟨ws, hws1, hws2⟩
    · -- a extends at least to the end of the window
      match ws, hws1, hws2 with
      | [], hws1, hws2 =>
        exact absurd (by simpa using hws1) hafalse
      | wc :: ws', hws1, hws2 =>
        apply (matchOk_true_iff gsp _).mpr
        refine ⟨wc :: (ws' ++ b), ?_, ?_⟩
        · have hlist : c :: rest = m ++ (wc :: (ws' ++ b)) := by
            rw [hsplit, hws1, hm_cons]
            simp
          rw [hlist]
          exact hdet (wc :: (ws' ++ b))
        · have hr₂ : r₂ = wc :: (ws' ++ (repq ++ subScanF gsq repq fuel' true rq)) := by
            rw [hws2]; simp
          rw [hr₂] at hend₂
          exact hend₂
    · -- the replacement token would have to sit inside the match window
      match ws, hws1, hws2 with
      | [], hws1, hws2 =>
        exact absurd (by simpa using hws1.symm) hafalse
      | wc :: ws', hws1, hws2 =>
        exfalso
        obtain ⟨tq, htq⟩ := hrq
        have hwc : wc = '[' := by
          rw [htq] at hws2
          simpa using (List.cons.inj (by simpa using hws2)).1.symm
        have hmem : wc ∈ m := by
          rw [hm_cons, hws1]
          simp
        rcases hm_chars wc hmem with hd | hh
        · rw [hwc] at hd
          simp [isDigitC] at hd
        · rw [hwc] at hh
          simp at hh

/-- Self-clearing of one substitution: the output of a scan contains no match
of the scanned pattern (`re.sub` replaces every match; these patterns never
overlap, and replacements never create new matches of the same pattern). -/
theorem subScanF_selfclean (gs : List Nat) (rep : List Char)
    (hgs : PatOk gs) (hrep : RepOk rep) :
    ∀ (fuel : Nat) (l : List Char) (w : Bool), l.length ≤ fuel →
      scanClean gs w (subScanF gs rep fuel w l) = true := by
  intro fuel
  induction fuel with
  | zero =>
    intro l w hlen
    have : l = [] := List.length_eq_zero.mp (Nat.le_zero.mp hlen)
    subst this
    rfl
  | succ fuel ih =>
    intro l w hlen
    match l with
    | [] => rw [subScanF_nil]; rfl
    | c :: t =>
      rcases subScanF_cases gs rep fuel w c t with ⟨hred, hside⟩ | ⟨r, hw, hm, he, hred⟩
      · rw [hred, scanClean_cons, Bool.and_eq_true]
        have htlen : t.length ≤ fuel := by simp at hlen; omega
        refine ⟨?_, ih t (isWordC c) htlen⟩
        rcases hside with hw | hmo
        · rw [hw]; simp
        · -- no match on the input at this position; transfer to the output
          have hmo2 : matchOk gs (c :: subScanF gs rep fuel (isWordC c) t) = false := by
            match hval : matchOk gs (c :: subScanF gs rep fuel (isWordC c) t) with
            | false => rfl
            | true =>
              have := matchOk_transfer gs gs rep hgs hrep.2 fuel t c hval
              rw [this] at hmo
              exact absurd hmo (by simp)
          rw [hmo2]
          simp
      · rw [hred]
        obtain ⟨m, hsplit, hmne, _, _, _, _⟩ := matchGroups_spec gs hgs (c :: t) r hm
        have hrlen : r.length ≤ fuel := by
          have := congrArg List.length hsplit
          simp at this hlen
          obtain ⟨mh, mt2, hml⟩ := List.exists_cons_of_ne_nil hmne
          rw [hml] at this
          simp at this
          omega
        have hclean₂ : scanClean gs true (subScanF gs rep fuel true r) = true :=
          ih r true hrlen
        have hhead := subScanF_headshape gs rep hgs fuel true r he
        have hclean₃ : scanClean gs (wordAfter w rep) (subScanF gs rep fuel true r) = true :=
          scanClean_anyW gs hgs true (wordAfter w rep) _ hhead hclean₂
        rw [scanClean_append_nodigit gs hgs rep hrep.1 w _]
        exact hclean₃

/-- A substitution for one pattern preserves the absence of matches of any
(other) pattern. -/
theorem subScanF_crossclean (gsp gsq : List Nat) (rep : List Char)
    (hp : PatOk gsp) (hq : PatOk gsq) (hrep : RepOk rep) :
    ∀ (fuel : Nat) (l : List Char) (w : Bool), l.length ≤ fuel →
      scanClean gsp w l = true →
      scanClean gsp w (subScanF gsq rep fuel w l) = true := by
  intro fuel
  induction fuel with
  | zero =>
    intro l w hlen hcl
    have : l = [] := List.length_eq_zero.mp (Nat.le_zero.mp hlen)
    subst this
    rfl
  | succ fuel ih =>
    intro l w hlen hcl
    match l with
    | [] => rw [subScanF_nil]; rfl
    | c :: t =>
      rw [scanClean_cons, Bool.and_eq_true] at hcl
      rcases subScanF_cases gsq rep fuel w c t with ⟨hred, _⟩ | ⟨r, hw, hm, he, hred⟩
      · rw [hred, scanClean_cons, Bool.and_eq_true]
        have htlen : t.length ≤ fuel := by simp at hlen; omega
        refine ⟨?_, ih t (isWordC c) htlen hcl.2⟩
        rcases hcl.1.symm.trans rfl with h1
        rcases Bool.or_eq_true_iff.mp hcl.1 with hw1 | hmo
        · rw [hw1]; simp
        · have hmo1 : matchOk gsp (c :: t) = false := by simpa using hmo
          have hmo2 : matchOk gsp (c :: subScanF gsq rep fuel (isWordC c) t) = false := by
            match hval : matchOk gsp (c :: subScanF gsq rep fuel (isWordC c) t) with
            | false => rfl
            | true =>
              have := matchOk_transfer gsp gsq rep hp hrep.2 fuel t c hval
              rw [this] at hmo1
              exact absurd hmo1 (by simp)
          rw [hmo2]
          simp
      · rw [hred]
        obtain ⟨m, hsplit, hmne, _, _, ⟨m₀, c₁, hmc, hc₁⟩, _⟩ :=
          matchGroups_spec gsq hq (c :: t) r hm
        have hrlen : r.length ≤ fuel := by
          have := congrArg List.length hsplit
          simp at this hlen
          obtain ⟨mh, mt2, hml⟩ := List.exists_cons_of_ne_nil hmne
          rw [hml] at this
          simp at this
          omega
        -- the input suffix after the match is clean from word-ness true
        have hsuffix : scanClean gsp true r = true := by
          have := scanClean_suffix gsp m w r (by rw [← hsplit]; exact (by rw [scanClean_cons, Bool.and_eq_true]; exact hcl : scanClean gsp w (c :: t) = true))
          rwa [hmc, wordAfter_concat, digit_isWord c₁ hc₁] at this
        have hclean₂ : scanClean gsp true (subScanF gsq rep fuel true r) = true :=
          ih r true hrlen hsuffix
        have hhead := subScanF_headshape gsq rep hq fuel true r he
        have hclean₃ : scanClean gsp (wordAfter w rep) (subScanF gsq rep fuel true r) = true :=
          scanClean_anyW gsp hp true (wordAfter w rep) _
            (by
              rcases hhead with hnil | ⟨x, t₂, hx, hxd⟩
              · exact Or.inl hnil
              · exact Or.inr ⟨x, t₂, hx, hxd⟩)
            hclean₂
        rw [scanClean_append_nodigit gsp hp rep hrep.1 w _]
        exact hclean₃

/-- The three patterns have no match anywhere in the full redactor output. -/
theorem redact_output_clean (l : List Char) :
    scanClean SSN_PAT false
      (pySub ACCT_PAT ACCT_TOKEN (pySub CARD_PAT CARD_TOKEN (pySub SSN_PAT SSN_TOKEN l)))
        = true ∧
    scanClean CARD_PAT false
      (pySub ACCT_PAT ACCT_TOKEN (pySub CARD_PAT CARD_TOKEN (pySub SSN_PAT SSN_TOKEN l)))
        = true ∧
    scanClean ACCT_PAT false
      (pySub ACCT_PAT ACCT_TOKEN (pySub CARD_PAT CARD_TOKEN (pySub SSN_PAT SSN_TOKEN l)))
        = true := by
  refine ⟨?_, ?_, ?_⟩
  · have b1 : scanClean SSN_PAT false (pySub SSN_PAT SSN_TOKEN l) = true :=
      subScanF_selfclean SSN_PAT SSN_TOKEN patok_ssn repok_ssn l.length l false (le_refl _)
    have c1 : scanClean SSN_PAT false (pySub CARD_PAT CARD_TOKEN (pySub SSN_PAT SSN_TOKEN l))
        = true :=
      subScanF_crossclean SSN_PAT CARD_PAT CARD_TOKEN patok_ssn patok_card repok_card
        (pySub SSN_PAT SSN_TOKEN l).length _ false (le_refl _) b1
    exact
      subScanF_crossclean SSN_PAT ACCT_PAT ACCT_TOKEN patok_ssn patok_acct repok_acct
        (pySub CARD_PAT CARD_TOKEN (pySub SSN_PAT SSN_TOKEN l)).length _ false (le_refl _) c1
  · have b2 : scanClean CARD_PAT false (pySub CARD_PAT CARD_TOKEN (pySub SSN_PAT SSN_TOKEN l))
        = true :=
      subScanF_selfclean CARD_PAT CARD_TOKEN patok_card repok_card
        (pySub SSN_PAT SSN_TOKEN l).length _ false (le_refl _)
    exact
      subScanF_crossclean CARD_PAT ACCT_PAT ACCT_TOKEN patok_card patok_acct repok_acct
        (pySub CARD_PAT CARD_TOKEN (pySub SSN_PAT SSN_TOKEN l)).length _ false (le_refl _) b2
  · exact
      subScanF_selfclean ACCT_PAT ACCT_TOKEN patok_acct repok_acct
        (pySub CARD_PAT CARD_TOKEN (pySub SSN_PAT SSN_TOKEN l)).length _ false (le_refl _)

/-- C8 — the redactor is idempotent: applying `redact_sensitive_info` twice
yields the same string as applying it once (in particular, the redaction
tokens are never re-matched by any of the three patterns). -/
theorem C8_redactor_idempotent (s : String) :
    redact_sensitive_info (redact_sensitive_info s) = redact_sensitive_info s := by
  obtain ⟨h1, h2, h3⟩ := redact_output_clean s.data
  show (⟨pySub ACCT_PAT ACCT_TOKEN (pySub CARD_PAT CARD_TOKEN (pySub SSN_PAT SSN_TOKEN
      (pySub ACCT_PAT ACCT_TOKEN (pySub CARD_PAT CARD_TOKEN (pySub SSN_PAT SSN_TOKEN
        s.data)))))⟩ : String)
    = ⟨pySub ACCT_PAT ACCT_TOKEN (pySub CARD_PAT CARD_TOKEN (pySub SSN_PAT SSN_TOKEN s.data))⟩
  rw [show pySub SSN_PAT SSN_TOKEN
      (pySub ACCT_PAT ACCT_TOKEN (pySub CARD_PAT CARD_TOKEN (pySub SSN_PAT SSN_TOKEN s.data)))
      = pySub ACCT_PAT ACCT_TOKEN (pySub CARD_PAT CARD_TOKEN (pySub SSN_PAT SSN_TOKEN s.data))
    from subScanF_id_of_clean SSN_PAT SSN_TOKEN _ false _ h1]
  rw [show pySub CARD_PAT CARD_TOKEN
      (pySub ACCT_PAT ACCT_TOKEN (pySub CARD_PAT CARD_TOKEN (pySub SSN_PAT SSN_TOKEN s.data)))
      = pySub ACCT_PAT ACCT_TOKEN (pySub CARD_PAT CARD_TOKEN (pySub SSN_PAT SSN_TOKEN s.data))
    from subScanF_id_of_clean CARD_PAT CARD_TOKEN _ false _ h2]
  rw [show pySub ACCT_PAT ACCT_TOKEN
      (pySub ACCT_PAT ACCT_TOKEN (pySub CARD_PAT CARD_TOKEN (pySub SSN_PAT SSN_TOKEN s.data)))
      = pySub ACCT_PAT ACCT_TOKEN (pySub CARD_PAT CARD_TOKEN (pySub SSN_PAT SSN_TOKEN s.data))
    from subScanF_id_of_clean ACCT_PAT ACCT_TOKEN _ false _ h3]

/-! Cross-checks of the redactor embedding against the behaviour of the
Python `re.sub` calls on concrete inputs. -/

example : redact_sensitive_info "123-45-6789" = "[REDACTED SSN]" := by decide

example : redact_sensitive_info "4111-1111-1111-1111" = "[REDACTED CARD]" := by decide

example : redact_sensitive_info "123456789" = "[REDACTED ACCOUNT]" := by decide

example : redact_sensitive_info "x123-45-6789" = "x123-45-6789" := by decide

example : redact_sensitive_info "123-45-67891" = "123-45-67891" := by decide

example : redact_sensitive_info "123456789-12" = "[REDACTED ACCOUNT]-12" := by decide

example : redact_sensitive_info "a123456789" = "a123456789" := by decide

example : redact_sensitive_info "_123456789" = "_123456789" := by decide

example : redact_sensitive_info "123-45-6789123456789" = "123-45-6789123456789" := by decide

example : redact_sensitive_info "123456789-111-22-3333" = "[REDACTED ACCOUNT]-[REDACTED SSN]" := by
  decide

example : redact_sensitive_info "12-123-45-6789" = "12-[REDACTED SSN]" := by decide

example : redact_sensitive_info " 123-45-6789." = " [REDACTED SSN]." := by decide

example : redact_sensitive_info "999-99-9999x" = "999-99-9999x" := by decide

example : redact_sensitive_info "123456789123456789" = "123456789123456789" := by decide

example : redact_sensitive_info "123-45-6789-123456789" = "[REDACTED SSN]-[REDACTED ACCOUNT]" := by
  decide

example :
    redact_sensitive_info "123-45-6789 4111-1111-1111-1111 123456789"
      = "[REDACTED SSN] [REDACTED CARD] [REDACTED ACCOUNT]" := by decide

/-! Cross-checks of `splitext`, `pyReplace` and `get_unique_filename` against
the behaviour of the Python originals on concrete inputs. -/

example : splitext "doc.pdf" = ("doc", ".pdf") := by decide

example : splitext "archive.tar.gz" = ("archive.tar", ".gz") := by decide

example : splitext ".bashrc" = (".bashrc", "") := by decide

example : splitext "noext" = ("noext", "") := by decide

example : splitext "...b" = ("...b", "") := by decide

example : splitext "..a.b" = ("..a", ".b") := by decide

example : splitext "x..pdf" = ("x.", ".pdf") := by decide

example : pyReplace "aaa" "aa" "b" = "ba" := by decide

example : pyReplace "abcabc" "bc" "X" = "aXaX" := by decide

example : pyReplace "\x7bPDF_TEXT\x7d and \x7bPDF_TEXT\x7d" "\x7bPDF_TEXT\x7d" "T"
    = "T and T" := by decide

example : get_unique_filename ["doc.pdf", "doc-1.pdf"] "doc.pdf" = "doc-2.pdf" := by decide

example : get_unique_filename [] "doc.pdf" = "doc.pdf" := by decide

example : get_unique_filename ["a.tar.gz"] "a.tar.gz" = "a.tar-1.gz" := by decide

/-! Cross-checks of the dict stringification, the ambiguity trigger, and the
end-to-end scenarios of the orchestrator. -/

example : pyStrDict [("date", "unknown")] = "\x7b'date': 'unknown'\x7d" := by decide

example : ambiguous [("date", "unknown")] = true := by decide

example :
    ambiguous [("category", "Invoice"), ("date", "2023-04-01"), ("filename", "invoice.pdf")]
      = false := by decide

example :
    ambiguous [("category", "Unknown Co"), ("date", "2023-04-01"), ("filename", "x.pdf")]
      = true := by decide

example :
    process_pdf ⟨"text",
        some [("category", "Invoice"), ("date", "2023-04-01"), ("filename", "invoice.pdf")],
        "", none, []⟩
      = ⟨false, .filed "D:\\Documents\\Filed\\2023\\2023 - Invoice\\invoice.pdf"⟩ := by decide

example :
    process_pdf ⟨"", some [("category", "unreadable")], "", none, []⟩
      = ⟨false, .skippedUnreadable⟩ := by decide

example : process_pdf ⟨"", none, "", none, []⟩ = ⟨false, .skippedLlmError⟩ := by decide
